/-
Verification of the notification delivery / dedup / batching pipeline of the
1099Backend repository, shallowly embedded in Lean 4.

JavaScript strings are modelled as lists of characters (`Str`); machine
integers of the source are modelled as `Nat`/`Int`; fallible collaborator
calls (database queries, the push provider) are modelled as `Except`-valued
oracles passed explicitly.  Each definition mirrors one function of the
source tree:

  * `isLikelyValidFcmToken`, `FcmNext.sendMulticast`  — the superseding
    delivery-client revision (the fcm module revision with the validity
    filter and the skipped-invalid accounting);
  * `Fcm.sendMulticast`                                — src/services/fcm.ts;
  * `chunk`, `chunkFuel`, `jsSlice`                    — the chunk helper of
    both fcm revisions (the loop form and its recursive reading);
  * `collectWatcherTokens`, `startJobWatcherE`,
    `stopJobWatcherE`                                  — src/services/jobWatcher.ts;
  * `postJobs`, `notifyTask`, `collectLastTokens`      — the POST /api/jobs
    handler of src/routes/jobs.ts (creation, vendor matching, auto-assign,
    fire-and-forget notification).
-/
import Mathlib

set_option autoImplicit false

/-! ### Strings as character lists -/

/-- A JavaScript string, modelled as its list of characters. -/
abbrev Str := List Char

/-- JS `String.prototype.trim`: strip whitespace from both ends. -/
def jsTrim (s : Str) : Str :=
  ((s.dropWhile Char.isWhitespace).reverse.dropWhile Char.isWhitespace).reverse

/-- `leadsWith p s` is true when `p` occurs at the start of `s`. -/
def leadsWith : Str → Str → Bool
  | [], _ => true
  | _ :: _, [] => false
  | p :: ps, c :: cs => p == c && leadsWith ps cs

/-- JS `String.prototype.includes(pat)`: `pat` occurs contiguously in `s`. -/
def hasSub (pat : Str) : Str → Bool
  | [] => leadsWith pat []
  | c :: cs => leadsWith pat (c :: cs) || hasSub pat cs

/-- The vendor-format marker substring looked for by the token heuristic. -/
def apa91Marker : Str := ['A', 'P', 'A', '9', '1']

/-- `isLikelyValidFcmToken` from the superseding fcm revision: a token is
likely valid when it is non-null and non-empty and its trimmed form is
longer than 80 characters, contains a colon, and contains the `APA91`
marker case-insensitively. -/
def isLikelyValidFcmToken (token : Option Str) : Bool :=
  match token with
  | none => false
  | some tok =>
    if tok = [] then false
    else
      let t := jsTrim tok
      decide (80 < t.length) && t.contains ':' && hasSub apa91Marker (t.map Char.toUpper)

/-! ### The chunk helper -/

/-- `chunk` of both fcm revisions, read recursively: split a list into
consecutive slices of `size` elements, the last possibly shorter.  The
source loop does not terminate for `size = 0` on non-empty input; that
case is mapped to `[]` here and treated separately through `chunkFuel`. -/
def chunk {α : Type} (arr : List α) (size : Nat) : List (List α) :=
  if h : arr.isEmpty ∨ size = 0 then []
  else arr.take size :: chunk (arr.drop size) size
termination_by arr.length
decreasing_by
  simp only [not_or, List.isEmpty_iff] at h
  have hlen : 0 < arr.length := List.length_pos.mpr h.1
  have hs : 0 < size := Nat.pos_of_ne_zero h.2
  simp only [List.length_drop]
  omega

/-- JS `Array.prototype.slice(start, stop)` with its clamping rules. -/
def jsSlice {α : Type} (arr : List α) (start stop : Int) : List α :=
  let len : Int := arr.length
  let s : Int := if start < 0 then max (len + start) 0 else min start len
  let e : Int := if stop < 0 then max (len + stop) 0 else min stop len
  (arr.drop s.toNat).take (e - s).toNat

/-- The `chunk` loop of the source, transcribed literally with an explicit
fuel bound: state `(i, out)` and step
`for (let i = 0; i < arr.length; i += size) out.push(arr.slice(i, i + size))`.
`none` means the fuel ran out before the loop exited. -/
def chunkFuel {α : Type} (arr : List α) (size : Int) :
    Nat → Int → List (List α) → Option (List (List α))
  | 0, _, _ => none
  | fuel + 1, i, out =>
    if i < (arr.length : Int) then
      chunkFuel arr size fuel (i + size) (out ++ [jsSlice arr i (i + size)])
    else
      some out

/-! ### Delivery client: the two `sendMulticast` revisions -/

/-- The success/failure tally returned by one `sendMulticast` call and by
one provider call (`sendEachForMulticast`); per-token responses are only
logged by the source and are not modelled. -/
structure SendOutcome where
  successCount : Nat
  failureCount : Nat
deriving DecidableEq

/-- A push-provider oracle: one multi-recipient send call, which may either
return a tally or throw (reject). -/
abbrev Provider := List Str → Except Unit SendOutcome

namespace Fcm

/-- `sendMulticast` of src/services/fcm.ts.  `initialized` is the module's
global flag after `initIfNeeded()`.  Returns the outcome together with the
list of provider calls issued; `Except.error` models a thrown rejection of
the provider call. -/
def sendMulticast (initialized : Bool) (provider : Provider) (tokens : List Str) :
    Except Unit (SendOutcome × List (List Str)) :=
  if initialized = false then .ok (⟨0, tokens.length⟩, [])
  else if tokens.isEmpty then .ok (⟨0, 0⟩, [])
  else
    match provider tokens with
    | .ok r => .ok (⟨r.successCount, r.failureCount⟩, [tokens])
    | .error e => .error e

end Fcm

namespace FcmNext

/-- The tokens that survive the validity filter of the superseding
`sendMulticast` revision. -/
def validTokens (tokens : List Str) : List Str :=
  tokens.filter (fun t => isLikelyValidFcmToken (some t))

/-- `skippedInvalid` of the superseding revision: how many submitted tokens
were dropped by the validity filter (logged, never counted as failures). -/
def skippedInvalid (tokens : List Str) : Nat :=
  tokens.length - (validTokens tokens).length

/-- `sendMulticast` of the superseding fcm revision: empty input and
all-invalid input short-circuit to a zero tally, an uninitialized client
short-circuits to a zero tally, otherwise one provider call is issued with
exactly the filtered tokens. -/
def sendMulticast (initialized : Bool) (provider : Provider) (tokens : List Str) :
    Except Unit (SendOutcome × List (List Str)) :=
  if tokens.isEmpty then .ok (⟨0, 0⟩, [])
  else
    let valid := validTokens tokens
    if valid.isEmpty then .ok (⟨0, 0⟩, [])
    else if initialized = false then .ok (⟨0, 0⟩, [])
    else
      match provider valid with
      | .ok r => .ok (⟨r.successCount, r.failureCount⟩, [valid])
      | .error e => .error e

end FcmNext


/-! ### Token collection into a JS `Set` (dedup) -/

/-- One JS `Set.add` on an insertion-ordered set represented as a list. -/
def setAdd (acc : List Str) (t : Str) : List Str :=
  if t ∈ acc then acc else acc ++ [t]

/-- A user document as read by the change-feed watcher: its `fcmTokens`
array (absent modelled as `[]`). -/
structure WatcherUser where
  fcmTokens : List Str
deriving DecidableEq

/-- Token collection of src/services/jobWatcher.ts lines 32–39: query users
with a non-empty `fcmTokens` array, then insert every truthy token of every
user into one shared `Set`, in order. -/
def collectWatcherTokens (users : List WatcherUser) : List Str :=
  (users.filter (fun u => !u.fcmTokens.isEmpty)).foldl
    (fun acc u => u.fcmTokens.foldl (fun a t => if t.isEmpty then a else setAdd a t) acc) []

/-- A user document as read by the jobs route: linked vendor id and the
`lastFcmToken` field. -/
structure User where
  uid : Nat
  vendorId : Option Nat
  lastFcmToken : Option Str
deriving DecidableEq

/-- Token collection of the POST /api/jobs hook: for each selected user,
insert the trimmed `lastFcmToken` into a `Set` when both the raw and the
trimmed token are truthy. -/
def collectLastTokens (users : List User) : List Str :=
  users.foldl
    (fun acc u =>
      match u.lastFcmToken with
      | some t => if t.isEmpty then acc else if (jsTrim t).isEmpty then acc else setAdd acc (jsTrim t)
      | none => acc) []

/-! ### The change-feed watcher lifecycle -/

/-- The live change-stream subscription opened by the watcher (insert
operations only, full-document retrieval). -/
structure Subscription where
  insertOnly : Bool
deriving DecidableEq

/-- The module state of src/services/jobWatcher.ts: the `running` flag and
the `changeStream` handle. -/
structure WatcherState where
  running : Bool
  changeStream : Option Subscription
deriving DecidableEq

/-- The module state at process start. -/
def initialWatcherState : WatcherState := ⟨false, none⟩

/-- `startJobWatcher`: no-op when already running; otherwise set `running`,
then check the topology guard (unsupported: warn and return without
registering anything); otherwise open the change stream (`watchFails`
models `JobModel.watch` throwing, which nothing catches). -/
def startJobWatcherE (supported watchFails : Bool) (s : WatcherState) :
    Except Unit WatcherState :=
  if s.running then .ok s
  else
    let s1 : WatcherState := { s with running := true }
    if !supported then .ok s1
    else if watchFails then .error ()
    else .ok { s1 with changeStream := some ⟨true⟩ }

/-- `stopJobWatcher`: clear `running`, close the stream inside
`try … catch {}` (so `closeFails` never escapes), null the handle. -/
def stopJobWatcherE (closeFails : Bool) (s : WatcherState) :
    Except Unit WatcherState :=
  .ok { s with running := false, changeStream := none }

/-! ### POST /api/jobs: creation, vendor matching, auto-assign, notify -/

/-- Case-insensitive string equality, modelling the anchored
case-insensitive RegExp match used by the vendor query. -/
def eqCI (a b : Str) : Bool :=
  a.map Char.toUpper == b.map Char.toUpper

/-- A vendor profile: service-area zips and appliance types. -/
structure Vendor where
  vid : Nat
  serviceAreas : List Str
  appliances : List Str
deriving DecidableEq

/-- A persisted job document (the fields this pipeline reads or writes). -/
structure Job where
  jid : Nat
  soNumber : Str
  customerZip : Str
  customerCity : Str
  applianceType : Str
  status : Str
  vendorId : Option Nat
  assignmentId : Option Nat
deriving DecidableEq

/-- A job-assignment record as created by the auto-assign branch. -/
structure Assignment where
  aid : Nat
  jobId : Nat
  vendorId : Nat
  status : Str
  action : Str
deriving DecidableEq

/-- The persisted collections touched by the POST /api/jobs handler. -/
structure DB where
  jobs : List Job
  assignments : List Assignment
  vendors : List Vendor
  users : List User
deriving DecidableEq

/-- The vendor query of the hook: when the job's trimmed zip is non-empty
the vendor's `serviceAreas` must contain it (case-insensitively), and
likewise for the appliance type; an empty field drops its clause. -/
def vendorMatches (zip appliance : Str) (v : Vendor) : Bool :=
  (zip.isEmpty || v.serviceAreas.any (fun a => eqCI a zip)) &&
  (appliance.isEmpty || v.appliances.any (fun a => eqCI a appliance))

/-- `VendorModel.find(vendorFilter)` of the hook. -/
def matchedVendors (db : DB) (doc : Job) : List Vendor :=
  db.vendors.filter (vendorMatches (jsTrim doc.customerZip) (jsTrim doc.applianceType))

/-- The user query of the hook: linked to one of the matched vendors and
holding an existing, non-empty `lastFcmToken`. -/
def userSelected (vendorIds : List Nat) (u : User) : Bool :=
  (match u.vendorId with
   | some v => vendorIds.contains v
   | none => false) &&
  (match u.lastFcmToken with
   | some t => !t.isEmpty
   | none => false)

/-- The sequential batch loop of the hook: each batch is handed to
`sendMulticast` (one delivery attempt); a thrown send aborts the loop and
is caught by the hook's outer catch.  Returns the attempted batches. -/
def attemptBatches (send : List Str → Except Unit SendOutcome) :
    List (List Str) → List (List Str)
  | [] => []
  | b :: rest =>
    b :: (match send b with
          | .ok _ => attemptBatches send rest
          | .error _ => [])

/-- The fallible collaborator calls of the detached notification hook. -/
structure NotifyOracle where
  vendorFindOk : Bool
  assignCreate : Except Unit Nat
  jobUpdateOk : Bool
  userFindOk : Bool
  send : List Str → Except Unit SendOutcome

/-- Outcome of the detached hook: the persisted state afterwards and the
batches handed to `sendMulticast`. -/
structure NotifyResult where
  db : DB
  attempts : List (List Str)

/-- The `updateOne` the auto-assign branch applies to the job (and order)
document: set vendorId, status "assigned" and the assignment id. -/
def jobAssignUpdate (chosen aid docId : Nat) (j : Job) : Job :=
  if j.jid = docId then
    { j with vendorId := some chosen, status := "assigned".data, assignmentId := some aid }
  else j

/-- The auto-assign side effect of the hook: only when exactly one vendor
matched, create an "assigned" assignment record and reflect it on the job;
a failed assignment create (its own try/catch) leaves the state unchanged,
a failed job update keeps the created assignment record. -/
def autoAssignDB (o : NotifyOracle) (docId : Nat) (db : DB) : List Nat → DB
  | [chosen] =>
    (match o.assignCreate with
     | .error _ => db
     | .ok aid =>
       let dbA := { db with
         assignments := db.assignments ++ [⟨aid, docId, chosen, "assigned".data, "accept".data⟩] }
       if o.jobUpdateOk then { dbA with jobs := dbA.jobs.map (jobAssignUpdate chosen aid docId) }
       else dbA)
  | _ => db

/-- The fire-and-forget body of POST /api/jobs: vendor matching, the
single-match auto-assign side effect (its own try/catch), audience
resolution, dedup of trimmed last tokens, 500-sized batching, sequential
sends.  Every thrown step is caught by the outer catch, so the function is
total and returns the state reached when the hook stopped. -/
def notifyTask (o : NotifyOracle) (doc : Job) (db : DB) : NotifyResult :=
  if !o.vendorFindOk then ⟨db, []⟩
  else
    let vendorIds := (matchedVendors db doc).map (·.vid)
    let db1 := autoAssignDB o doc.jid db vendorIds
    let usersE : Except Unit (List User) :=
      if vendorIds.isEmpty then .ok []
      else if o.userFindOk then .ok (db1.users.filter (userSelected vendorIds))
      else .error ()
    match usersE with
    | .error _ => ⟨db1, []⟩
    | .ok users =>
      ⟨db1, attemptBatches o.send (chunk (collectLastTokens users) 500)⟩

/-- The request body fields the handler reads (absent field = `none`). -/
structure ReqBody where
  soNumber : Option Str
  customerZip : Option Str
  customerCity : Option Str
  applianceType : Option Str
  status : Option Str
  vendorId : Option Nat

/-- JS `a || b` over an optional string field. -/
def strOr (o : Option Str) (d : Str) : Str :=
  match o with
  | some s => if s.isEmpty then d else s
  | none => d

/-- The HTTP response shape the handler produces. -/
structure HttpResponse where
  status : Nat
  success : Bool
deriving DecidableEq

/-- How `JobModel.create` can fail (caught by the route's catch). -/
inductive CreateErr
  | dupKey
  | other

/-- The oracle for the whole POST handler: the notify-hook oracle plus the
creation result and the id Mongo assigns to the new document. -/
structure PostOracle extends NotifyOracle where
  createResult : Except CreateErr Unit
  newJobId : Nat

/-- The document `JobModel.create` persists for a request body: defaulted
status "available", the caller's fields otherwise. -/
def createdDoc (newJobId : Nat) (body : ReqBody) : Job :=
  { jid := newJobId
    soNumber := body.soNumber.getD []
    customerZip := body.customerZip.getD []
    customerCity := body.customerCity.getD []
    applianceType := body.applianceType.getD []
    status := strOr body.status "available".data
    vendorId := body.vendorId
    assignmentId := none }

/-- Result of one POST /api/jobs request: response, final persisted state,
and the delivery attempts made by the detached hook. -/
structure PostResult where
  resp : HttpResponse
  db : DB
  attempts : List (List Str)

/-- The POST /api/jobs handler of src/routes/jobs.ts: auth guard, required
`soNumber`, `JobModel.create` (duplicate key → 409, other error → 500),
then the detached fire-and-forget notification hook, and the 201 response
built independently of the hook's outcome. -/
def postJobs (o : PostOracle) (auth : Bool) (body : ReqBody) (db : DB) : PostResult :=
  if !auth then ⟨⟨401, false⟩, db, []⟩
  else if (body.soNumber.getD []).isEmpty then ⟨⟨400, false⟩, db, []⟩
  else
    match o.createResult with
    | .error .dupKey => ⟨⟨409, false⟩, db, []⟩
    | .error .other => ⟨⟨500, false⟩, db, []⟩
    | .ok _ =>
      let doc := createdDoc o.newJobId body
      let db1 := { db with jobs := db.jobs ++ [doc] }
      let nr := notifyTask o.toNotifyOracle doc db1
      ⟨⟨201, true⟩, nr.db, nr.attempts⟩

/-! ### Lemmas about `chunk` -/

theorem chunk_eq {α : Type} (arr : List α) (size : Nat) :
    chunk arr size = if arr.isEmpty ∨ size = 0 then [] else arr.take size :: chunk (arr.drop size) size := by
  rw [chunk]; split <;> rfl

theorem chunk_nil {α : Type} (size : Nat) : chunk ([] : List α) size = [] := by
  simp [chunk_eq]

theorem chunk_cons {α : Type} {arr : List α} {size : Nat} (ha : arr ≠ []) (hs : size ≠ 0) :
    chunk arr size = arr.take size :: chunk (arr.drop size) size := by
  rw [chunk_eq, if_neg]
  simp [List.isEmpty_iff, ha, hs]

theorem chunk_eq_nil_iff {α : Type} {arr : List α} {size : Nat} (hs : size ≠ 0) :
    chunk arr size = [] ↔ arr = [] := by
  constructor
  · intro h
    by_contra ha
    rw [chunk_cons ha hs] at h
    exact List.cons_ne_nil _ _ h
  · intro h; subst h; exact chunk_nil size

theorem chunk_flatten {α : Type} (arr : List α) (size : Nat) (hS : size ≠ 0) :
    (chunk arr size).flatten = arr := by
  induction arr, size using chunk.induct with
  | case1 arr size h =>
    rcases h with h | h
    · simp only [List.isEmpty_iff] at h; simp [h, chunk_nil]
    · exact absurd h hS
  | case2 arr size h ih =>
    simp only [List.isEmpty_iff, not_or] at h
    rw [chunk_cons h.1 hS]
    simp only [List.flatten_cons]
    rw [ih hS]
    exact List.take_append_drop _ _

theorem chunk_length {α : Type} (arr : List α) (size : Nat) (hS : size ≠ 0) :
    (chunk arr size).length = (arr.length + size - 1) / size := by
  induction arr, size using chunk.induct with
  | case1 arr size h =>
    rcases h with h | h
    · simp only [List.isEmpty_iff] at h
      subst h
      rw [chunk_nil]
      simp only [List.length_nil]
      rw [Nat.div_eq_of_lt (by omega)]
    · exact absurd h hS
  | case2 arr size h ih =>
    simp only [List.isEmpty_iff, not_or] at h
    have hn : 0 < arr.length := List.length_pos.mpr h.1
    have hpos : 0 < size := Nat.pos_of_ne_zero hS
    rw [chunk_cons h.1 hS, List.length_cons, ih hS, List.length_drop]
    have h1 : arr.length + size - 1 = (arr.length - 1) + size := by omega
    rw [h1, Nat.add_div_right _ hpos]
    rcases le_or_lt arr.length size with hle | hlt
    · have h2 : arr.length - size = 0 := by omega
      rw [h2]
      have h3 : 0 + size - 1 = size - 1 := by omega
      rw [h3, Nat.div_eq_of_lt (by omega), Nat.div_eq_of_lt (by omega)]
    · have h3 : arr.length - size + size - 1 = (arr.length - 1 - size) + size := by omega
      rw [h3, Nat.add_div_right _ hpos]
      have h4 : arr.length - 1 = (arr.length - 1 - size) + size := by omega
      conv_rhs => rw [h4, Nat.add_div_right _ hpos]

theorem chunk_mem_length_le {α : Type} (arr : List α) (size : Nat) :
    ∀ c ∈ chunk arr size, c.length ≤ size := by
  induction arr, size using chunk.induct with
  | case1 arr size h =>
    rw [chunk_eq, if_pos h]
    intro c hc
    exact absurd hc (List.not_mem_nil c)
  | case2 arr size h ih =>
    simp only [List.isEmpty_iff, not_or] at h
    rw [chunk_cons h.1 h.2]
    intro c hc
    rcases List.mem_cons.mp hc with rfl | hc
    · rw [List.length_take]
      exact Nat.min_le_left _ _
    · exact ih c hc

theorem chunk_dropLast_length {α : Type} (arr : List α) (size : Nat) (hS : size ≠ 0) :
    ∀ c ∈ (chunk arr size).dropLast, c.length = size := by
  induction arr, size using chunk.induct with
  | case1 arr size h =>
    rcases h with h | h
    · simp only [List.isEmpty_iff] at h
      subst h
      rw [chunk_nil]
      intro c hc
      exact absurd hc (List.not_mem_nil c)
    · exact absurd h hS
  | case2 arr size h ih =>
    simp only [List.isEmpty_iff, not_or] at h
    rw [chunk_cons h.1 hS]
    rcases hr : chunk (arr.drop size) size with _ | ⟨b, bs⟩
    · intro c hc
      exact absurd hc (List.not_mem_nil c)
    · rw [List.dropLast_cons₂]
      intro c hc
      rcases List.mem_cons.mp hc with rfl | hc
      · have hdrop : arr.drop size ≠ [] := by
          intro hd
          rw [(chunk_eq_nil_iff hS).mpr hd] at hr
          exact List.cons_ne_nil _ _ hr.symm
        have : size < arr.length := by
          have := List.length_pos.mpr hdrop
          rw [List.length_drop] at this
          omega
        rw [List.length_take]
        omega
      · rw [← hr] at hc
        exact ih hS c hc

theorem chunk_mem_mem {α : Type} {arr : List α} {size : Nat} (hS : size ≠ 0)
    {b : List α} (hb : b ∈ chunk arr size) {t : α} (ht : t ∈ b) : t ∈ arr := by
  rw [← chunk_flatten arr size hS]
  exact List.mem_flatten.mpr ⟨b, hb, ht⟩

/-! ### The chunk loop: equivalence and (non-)termination -/

theorem jsSlice_of_nonneg {α : Type} (arr : List α) (i size : Int)
    (hi : 0 ≤ i) (hilt : i < (arr.length : Int)) (hs : 0 < size) :
    jsSlice arr i (i + size) = (arr.drop i.toNat).take size.toNat := by
  have hndrop : (arr.drop i.toNat).length = arr.length - i.toNat := List.length_drop _ _
  simp only [jsSlice]
  rw [if_neg (by omega), if_neg (by omega)]
  rcases le_or_lt (i + size) (arr.length : Int) with hc | hc
  · rw [min_eq_left (by omega), min_eq_left (by omega)]
    congr 1
    omega
  · rw [min_eq_right (by omega), min_eq_left (by omega)]
    rw [List.take_of_length_le (by rw [hndrop]; omega),
        List.take_of_length_le (by rw [hndrop]; omega)]

theorem chunkFuel_eq_chunk {α : Type} (arr : List α) (size : Int) (hs : 0 < size) :
    ∀ (fuel : Nat) (i : Int) (out : List (List α)),
      0 ≤ i → i ≤ (arr.length : Int) → (arr.length : Int) < i + fuel →
      chunkFuel arr size fuel i out = some (out ++ chunk (arr.drop i.toNat) size.toNat) := by
  intro fuel
  induction fuel with
  | zero =>
    intro i out h0 hle hlt
    exfalso
    omega
  | succ fuel ih =>
    intro i out h0 hle hlt
    by_cases hguard : i < (arr.length : Int)
    · rw [chunkFuel, if_pos hguard, jsSlice_of_nonneg arr i size h0 hguard hs]
      have hne : arr.drop i.toNat ≠ [] := by
        intro hd
        have hl := congrArg List.length hd
        rw [List.length_drop] at hl
        simp only [List.length_nil] at hl
        omega
      rcases le_or_lt (i + size) (arr.length : Int) with hc | hc
      · rw [ih (i + size) _ (by omega) (by omega) (by omega)]
        rw [chunk_cons hne (by omega)]
        have hdd : (arr.drop i.toNat).drop size.toNat = arr.drop (i + size).toNat := by
          rw [List.drop_drop]
          congr 1
          omega
        rw [hdd]
        simp [List.append_assoc]
      · cases fuel with
        | zero =>
          exfalso
          omega
        | succ f =>
          rw [chunkFuel, if_neg (by omega)]
          rw [chunk_cons hne (by omega)]
          have hnil : (arr.drop i.toNat).drop size.toNat = [] := by
            rw [List.drop_eq_nil_iff]
            rw [List.length_drop]
            omega
          rw [hnil, chunk_nil]
    · rw [chunkFuel, if_neg hguard]
      have : arr.drop i.toNat = [] := by
        rw [List.drop_eq_nil_iff]
        omega
      rw [this, chunk_nil]
      simp

theorem chunkFuel_nonpos_none {α : Type} (arr : List α) (size : Int)
    (hs : size ≤ 0) (ha : arr ≠ []) :
    ∀ (fuel : Nat) (i : Int) (out : List (List α)), i ≤ 0 →
      chunkFuel arr size fuel i out = none := by
  intro fuel
  induction fuel with
  | zero => intro i out hi; rfl
  | succ fuel ih =>
    intro i out hi
    have hlen : 0 < arr.length := List.length_pos.mpr ha
    rw [chunkFuel, if_pos (by omega)]
    exact ih (i + size) _ (by omega)

/-! ### Lemmas about `Set`-based dedup -/

/-- Folding `setAdd` over a list: the spec's `dedupe` operation, as the
source realises it through a JS `Set` built by insertion. -/
def dedupe (l : List Str) : List Str := l.foldl setAdd []

theorem mem_setAdd {acc : List Str} {t x : Str} :
    x ∈ setAdd acc t ↔ x ∈ acc ∨ x = t := by
  unfold setAdd
  split
  · constructor
    · exact Or.inl
    · rintro (hx | rfl)
      · exact hx
      · assumption
  · simp

theorem mem_foldl_setAdd {l : List Str} {acc : List Str} {x : Str} :
    x ∈ List.foldl setAdd acc l ↔ x ∈ acc ∨ x ∈ l := by
  induction l generalizing acc with
  | nil => simp
  | cons y ys ih =>
    rw [List.foldl_cons, ih, mem_setAdd]
    simp only [List.mem_cons]
    tauto

theorem nodup_setAdd {acc : List Str} (h : acc.Nodup) (t : Str) :
    (setAdd acc t).Nodup := by
  unfold setAdd
  split
  · exact h
  · rw [List.nodup_append]
    exact ⟨h, List.nodup_singleton t, by simpa using ‹t ∉ acc›⟩

theorem nodup_foldl_setAdd {l : List Str} {acc : List Str} (h : acc.Nodup) :
    (List.foldl setAdd acc l).Nodup := by
  induction l generalizing acc with
  | nil => exact h
  | cons y ys ih => exact ih (nodup_setAdd h y)

theorem foldl_setAdd_of_nodup {l : List Str} {acc : List Str} (h : (acc ++ l).Nodup) :
    List.foldl setAdd acc l = acc ++ l := by
  induction l generalizing acc with
  | nil => simp
  | cons y ys ih =>
    rw [List.append_cons] at h
    have hy : y ∉ acc := by
      rcases List.nodup_append.mp h with ⟨h1, -, -⟩
      rcases List.nodup_append.mp h1 with ⟨-, -, hd⟩
      intro hmem
      exact hd hmem (List.mem_singleton_self y)
    rw [List.foldl_cons]
    have hsa : setAdd acc y = acc ++ [y] := by simp [setAdd, hy]
    rw [hsa, ih h]
    simp

theorem dedupe_nodup (l : List Str) : (dedupe l).Nodup :=
  nodup_foldl_setAdd List.nodup_nil

theorem mem_dedupe {l : List Str} {x : Str} : x ∈ dedupe l ↔ x ∈ l := by
  unfold dedupe
  rw [mem_foldl_setAdd]
  simp

theorem dedupe_idem (l : List Str) : dedupe (dedupe l) = dedupe l := by
  have h := @foldl_setAdd_of_nodup (dedupe l) [] (by simpa using dedupe_nodup l)
  simpa using h

/-- A duplicate-free list whose members all occur in `n` is no longer than
the number of distinct elements of `n`. -/
theorem length_le_dedup_of_nodup {m n : List Str} (hm : m.Nodup)
    (hsub : ∀ x ∈ m, x ∈ n) : m.length ≤ n.dedup.length := by
  rw [← List.toFinset_card_of_nodup hm, ← List.card_toFinset]
  apply Finset.card_le_card
  intro x hx
  rw [List.mem_toFinset] at hx ⊢
  exact hsub x hx

theorem dedupe_length_le {l : List Str} : (dedupe l).length ≤ l.dedup.length :=
  length_le_dedup_of_nodup (dedupe_nodup l) (fun x hx => mem_dedupe.mp hx)

/-! ### The collectors as `dedupe` of their flattened inputs -/

theorem foldl_skip_empty (l : List Str) (acc : List Str) :
    l.foldl (fun a t => if t.isEmpty then a else setAdd a t) acc
      = (l.filter (fun t => !t.isEmpty)).foldl setAdd acc := by
  induction l generalizing acc with
  | nil => rfl
  | cons y ys ih =>
    rw [List.foldl_cons, List.filter_cons]
    by_cases hy : y.isEmpty
    · rw [if_pos hy]
      simp only [hy, Bool.not_true, if_neg]
      rw [ih]
      simp
    · rw [if_neg hy]
      simp only [Bool.not_eq_true] at hy
      simp only [hy, Bool.not_false, if_pos]
      rw [ih]
      simp

theorem collectWatcherTokens_eq_dedupe (users : List WatcherUser) :
    collectWatcherTokens users
      = dedupe (((users.filter (fun u => !u.fcmTokens.isEmpty)).map
          (fun u => u.fcmTokens.filter (fun t => !t.isEmpty))).flatten) := by
  unfold collectWatcherTokens dedupe
  generalize users.filter (fun u => !u.fcmTokens.isEmpty) = us
  induction us using List.reverseRecOn with
  | nil => rfl
  | append_singleton us u ih =>
    rw [List.foldl_append, List.map_append, List.flatten_append, List.foldl_append, ih]
    simp only [List.foldl_cons, List.map_cons, List.map_nil, List.flatten_cons,
      List.flatten_nil, List.append_nil, List.foldl_nil]
    exact foldl_skip_empty _ _

/-- The trimmed last tokens each selected user contributes (when both the
raw and the trimmed token are truthy). -/
def lastTokenContrib (u : User) : Option Str :=
  match u.lastFcmToken with
  | some t => if t.isEmpty then none else if (jsTrim t).isEmpty then none else some (jsTrim t)
  | none => none

theorem collectLastTokens_eq_dedupe (users : List User) :
    collectLastTokens users = dedupe (users.filterMap lastTokenContrib) := by
  unfold collectLastTokens dedupe
  induction users using List.reverseRecOn with
  | nil => rfl
  | append_singleton us u ih =>
    rw [List.foldl_append, List.filterMap_append, List.foldl_append, ih]
    simp only [List.foldl_cons, List.foldl_nil, List.filterMap_cons, List.filterMap_nil]
    unfold lastTokenContrib
    rcases u.lastFcmToken with _ | t
    · rfl
    · by_cases h1 : t.isEmpty
      · simp [h1]
      · by_cases h2 : (jsTrim t).isEmpty
        · simp [h1, h2]
        · simp [h1, h2]

/-! ### Small string lemmas -/

theorem dropWhile_length_le (p : Char → Bool) (l : Str) :
    (l.dropWhile p).length ≤ l.length := by
  induction l with
  | nil => simp
  | cons c cs ih =>
    rw [List.dropWhile_cons]
    split
    · exact Nat.le_succ_of_le ih
    · simp

theorem jsTrim_length_le (s : Str) : (jsTrim s).length ≤ s.length := by
  unfold jsTrim
  rw [List.length_reverse]
  have h1 := dropWhile_length_le Char.isWhitespace ((s.dropWhile Char.isWhitespace).reverse)
  have h2 := dropWhile_length_le Char.isWhitespace s
  rw [List.length_reverse] at h1
  omega

/-! ### Claim theorems: batching and the loop -/

/-- Claim C3: for every token list of length N and every batch size S > 0,
`chunk` returns exactly ceil(N/S) = (N + S - 1) / S consecutive chunks, each
of length at most S with only the final chunk possibly smaller, whose
in-order concatenation reproduces the input list; an empty input yields
zero batches, not one empty batch. -/
theorem claim_C3_chunk {α : Type} (arr : List α) (S : Nat) (hS : 0 < S) :
    (chunk arr S).length = (arr.length + S - 1) / S
    ∧ (∀ c ∈ chunk arr S, c.length ≤ S)
    ∧ (∀ c ∈ (chunk arr S).dropLast, c.length = S)
    ∧ (chunk arr S).flatten = arr
    ∧ chunk ([] : List α) S = [] :=
  ⟨chunk_length arr S hS.ne', chunk_mem_length_le arr S,
   chunk_dropLast_length arr S hS.ne', chunk_flatten arr S hS.ne', chunk_nil S⟩

theorem claim_C3_chunk_witness :
    0 < 2
    ∧ ((chunk [1, 2, 3, 4, 5] 2).length = (([1, 2, 3, 4, 5] : List Nat).length + 2 - 1) / 2
       ∧ (∀ c ∈ chunk [1, 2, 3, 4, 5] 2, c.length ≤ 2)
       ∧ (∀ c ∈ (chunk [1, 2, 3, 4, 5] 2).dropLast, c.length = 2)
       ∧ (chunk [1, 2, 3, 4, 5] 2).flatten = [1, 2, 3, 4, 5]
       ∧ chunk ([] : List Nat) 2 = []) :=
  ⟨by decide, claim_C3_chunk [1, 2, 3, 4, 5] 2 (by decide)⟩

/-- Claim C9: the chunk loop (transcribed as `chunkFuel`) terminates for
every input list whenever size > 0 — fuel `arr.length + 1` suffices and the
loop computes `chunk` — and the precondition is necessary: for size ≤ 0 and
a non-empty input the index never reaches the bound and the loop never
exits, whatever fuel it is given. -/
theorem claim_C9_chunk_loop {α : Type} (arr : List α) (size : Int) :
    (0 < size → chunkFuel arr size (arr.length + 1) 0 [] = some (chunk arr size.toNat))
    ∧ (size ≤ 0 → arr ≠ [] → ∀ fuel, chunkFuel arr size fuel 0 [] = none) := by
  constructor
  · intro hs
    rw [chunkFuel_eq_chunk arr size hs (arr.length + 1) 0 [] le_rfl (by omega) (by omega)]
    simp
  · intro hs ha fuel
    exact chunkFuel_nonpos_none arr size hs ha fuel 0 [] le_rfl

theorem claim_C9_chunk_loop_witness :
    (0 < (2 : Int)
     ∧ chunkFuel ([1, 2, 3] : List Nat) 2 4 0 [] = some (chunk [1, 2, 3] (2 : Int).toNat))
    ∧ ((-1 : Int) ≤ 0 ∧ ([1] : List Nat) ≠ []
       ∧ chunkFuel ([1] : List Nat) (-1) 7 0 [] = none) :=
  ⟨⟨by decide, (claim_C9_chunk_loop [1, 2, 3] 2).1 (by decide)⟩,
   ⟨by decide, by decide, (claim_C9_chunk_loop [1] (-1)).2 (by decide) (by decide) 7⟩⟩

/-- Claim C4: `isLikelyValidFcmToken` returns true only if the trimmed
token is longer than 80 characters AND contains a colon AND contains the
vendor marker case-insensitively (stated as an exact iff, which also gives
determinism: the result is a function of the input string alone); every
string of length at most 80 is rejected regardless of content, and a null
token is rejected. -/
theorem claim_C4_isLikelyValid (tok : Str) :
    (isLikelyValidFcmToken (some tok) = true ↔
      (80 < (jsTrim tok).length ∧ (jsTrim tok).contains ':' = true
        ∧ hasSub apa91Marker ((jsTrim tok).map Char.toUpper) = true))
    ∧ (tok.length ≤ 80 → isLikelyValidFcmToken (some tok) = false)
    ∧ isLikelyValidFcmToken none = false := by
  refine ⟨?_, ?_, rfl⟩
  · by_cases htok : tok = []
    · subst htok
      simp [isLikelyValidFcmToken, jsTrim]
    · simp only [isLikelyValidFcmToken, if_neg htok]
      simp [Bool.and_eq_true, decide_eq_true_eq, and_assoc]
  · intro hlen
    by_cases htok : tok = []
    · subst htok; rfl
    · have hn : ¬ (80 < (jsTrim tok).length) := by
        have := jsTrim_length_le tok
        omega
      simp only [isLikelyValidFcmToken, if_neg htok]
      simp [hn]

theorem claim_C4_isLikelyValid_witness :
    "x:APA91".data.length ≤ 80 ∧ isLikelyValidFcmToken (some "x:APA91".data) = false :=
  ⟨by decide, (claim_C4_isLikelyValid "x:APA91".data).2.1 (by decide)⟩

/-! ### Claim theorems: uninitialized client, dedup, watcher lifecycle -/

/-- Claim C2 counterexample: in the src/services/fcm.ts revision (cited by
the claim alongside the superseding one), an uninitialized client does NOT
return failureCount 0 for every token list: on a one-token list it returns
{successCount 0, failureCount 1}, counting the undelivered token as a
failure. -/
theorem claim_C2_counterexample :
    Fcm.sendMulticast false (fun _ => .ok ⟨0, 0⟩) [['a']] = .ok (⟨0, 1⟩, [])
    ∧ (⟨0, 1⟩ : SendOutcome) ≠ ⟨0, 0⟩ :=
  ⟨rfl, by decide⟩

/-- Claim C2 (amended): when the delivery client failed to initialize, the
superseding `sendMulticast` revision returns {successCount 0, failureCount 0}
for every token list and issues no provider call (a soft skip), while the
earlier src/services/fcm.ts revision instead returns
{successCount 0, failureCount tokens.length}, counting every submitted
token as a failure. -/
theorem claim_C2_uninitialized (provider : Provider) (tokens : List Str) :
    FcmNext.sendMulticast false provider tokens = .ok (⟨0, 0⟩, [])
    ∧ Fcm.sendMulticast false provider tokens = .ok (⟨0, tokens.length⟩, []) := by
  constructor
  · simp only [FcmNext.sendMulticast]
    split_ifs with h1 h2
    · rfl
    · rfl
    · rfl
  · rfl

theorem count_eq_one_of_nodup_mem {l : List Str} {a : Str} (hn : l.Nodup) (ha : a ∈ l) :
    l.count a = 1 := by
  induction l with
  | nil => cases ha
  | cons x xs ih =>
    rcases List.nodup_cons.mp hn with ⟨hx, hxs⟩
    rw [List.count_cons]
    rcases List.mem_cons.mp ha with rfl | hmem
    · rw [List.count_eq_zero.mpr hx]
      simp
    · have hne : (x == a) = false := by
        rw [beq_eq_false_iff_ne]
        intro h
        subst h
        exact hx hmem
      rw [ih hxs hmem, hne]
      rfl

/-- Claim C6: set-based token dedup is idempotent, its result has no
duplicates, and for both collectors (the watcher's fcmTokens collection and
the jobs hook's lastFcmToken collection) the collected list has no
duplicates and size at most the number of distinct non-empty input tokens,
so a token registered by several accounts occurs exactly once in the list
handed to delivery. -/
theorem claim_C6_dedupe (l : List Str) (users : List WatcherUser)
    (jusers : List User) (t : Str) :
    dedupe (dedupe l) = dedupe l
    ∧ (dedupe l).Nodup
    ∧ (dedupe l).length ≤ l.dedup.length
    ∧ (collectWatcherTokens users).Nodup
    ∧ (collectWatcherTokens users).length
        ≤ ((users.map (fun u => u.fcmTokens)).flatten.filter (fun s => !s.isEmpty)).dedup.length
    ∧ (t.isEmpty = false → (∃ u ∈ users, t ∈ u.fcmTokens) →
        (collectWatcherTokens users).count t = 1)
    ∧ (collectLastTokens jusers).Nodup
    ∧ (t.isEmpty = false → (jsTrim t).isEmpty = false →
        (∃ u ∈ jusers, u.lastFcmToken = some t) →
        (collectLastTokens jusers).count (jsTrim t) = 1) := by
  refine ⟨dedupe_idem l, dedupe_nodup l, dedupe_length_le, ?_, ?_, ?_, ?_, ?_⟩
  · rw [collectWatcherTokens_eq_dedupe]
    exact dedupe_nodup _
  · rw [collectWatcherTokens_eq_dedupe]
    apply length_le_dedup_of_nodup (dedupe_nodup _)
    intro x hx
    rw [mem_dedupe] at hx
    rw [List.mem_flatten] at hx
    obtain ⟨fl, hfl, hxfl⟩ := hx
    rw [List.mem_map] at hfl
    obtain ⟨u, hu, rfl⟩ := hfl
    rw [List.mem_filter] at hu hxfl ⊢
    rw [List.mem_flatten]
    exact ⟨⟨u.fcmTokens, List.mem_map.mpr ⟨u, hu.1, rfl⟩, hxfl.1⟩, hxfl.2⟩
  · intro ht ⟨u, hu, htu⟩
    rw [collectWatcherTokens_eq_dedupe]
    apply count_eq_one_of_nodup_mem (dedupe_nodup _)
    rw [mem_dedupe, List.mem_flatten]
    have hune : (!u.fcmTokens.isEmpty) = true := by
      cases hft : u.fcmTokens with
      | nil => rw [hft] at htu; cases htu
      | cons c cs => rfl
    refine ⟨u.fcmTokens.filter (fun s => !s.isEmpty), ?_, ?_⟩
    · rw [List.mem_map]
      exact ⟨u, List.mem_filter.mpr ⟨hu, hune⟩, rfl⟩
    · exact List.mem_filter.mpr ⟨htu, by rw [ht]; rfl⟩
  · rw [collectLastTokens_eq_dedupe]
    exact dedupe_nodup _
  · intro ht htrim ⟨u, hu, htu⟩
    rw [collectLastTokens_eq_dedupe]
    apply count_eq_one_of_nodup_mem (dedupe_nodup _)
    rw [mem_dedupe, List.mem_filterMap]
    refine ⟨u, hu, ?_⟩
    rw [lastTokenContrib, htu]
    simp [ht, htrim]

theorem claim_C6_dedupe_witness :
    (collectWatcherTokens [⟨[['a'], ['b']]⟩, ⟨[['a']]⟩]).count ['a'] = 1
    ∧ (collectLastTokens [⟨1, none, some ['a']⟩, ⟨2, none, some ['a']⟩]).count (jsTrim ['a']) = 1 :=
  ⟨(claim_C6_dedupe [] [⟨[['a'], ['b']]⟩, ⟨[['a']]⟩] [] ['a']).2.2.2.2.2.1
     (by decide) (by decide),
   (claim_C6_dedupe [] [] [⟨1, none, some ['a']⟩, ⟨2, none, some ['a']⟩] ['a']).2.2.2.2.2.2.2
     (by decide) (by decide) (by decide)⟩

/-- Claim C8: starting the watcher against a topology without change-stream
support returns without throwing and registers no live subscription (the
changeStream handle stays as it was — `none` from the initial state), and a
stop call never throws, even when the watcher was never started. -/
theorem claim_C8_watcher_unsupported (s : WatcherState) (watchFails closeFails : Bool) :
    (∃ s1, startJobWatcherE false watchFails s = .ok s1 ∧ s1.changeStream = s.changeStream)
    ∧ startJobWatcherE false watchFails initialWatcherState = .ok ⟨true, none⟩
    ∧ (∀ s2 : WatcherState, stopJobWatcherE closeFails s2 = .ok ⟨false, none⟩) := by
  refine ⟨?_, rfl, fun s2 => rfl⟩
  by_cases hr : s.running
  · exact ⟨s, by simp [startJobWatcherE, hr], rfl⟩
  · exact ⟨⟨true, s.changeStream⟩, by simp [startJobWatcherE, hr], rfl⟩

/-- Claim C10: `startJobWatcher` sets the running flag before the topology
guard, so after the guard rejects an unsupported topology the flag is true
while no subscription exists; every subsequent start call (whatever the
topology then reports) returns immediately as a no-op, until a stop call
resets the flag to false — after which a supported start can register the
subscription again. -/
theorem claim_C10_wedged_flag (supported watchFails closeFails : Bool) :
    startJobWatcherE false watchFails initialWatcherState = .ok ⟨true, none⟩
    ∧ (∀ s : WatcherState, s.running = true → startJobWatcherE supported watchFails s = .ok s)
    ∧ stopJobWatcherE closeFails ⟨true, none⟩ = .ok ⟨false, none⟩
    ∧ startJobWatcherE true false ⟨false, none⟩ = .ok ⟨true, some ⟨true⟩⟩ := by
  refine ⟨rfl, fun s hs => ?_, rfl, rfl⟩
  simp [startJobWatcherE, hs]

theorem claim_C10_wedged_flag_witness :
    (⟨true, none⟩ : WatcherState).running = true
    ∧ startJobWatcherE true false ⟨true, none⟩ = .ok ⟨true, none⟩ :=
  ⟨rfl, (claim_C10_wedged_flag true false false).2.1 ⟨true, none⟩ rfl⟩

/-! ### The delivery pipeline's filter/batch order -/

/-- A provider that accepts every call (used to observe the full call
sequence of a pipeline). -/
def okProvider : Provider := fun _ => .ok ⟨0, 0⟩

/-- The provider calls the code pipeline issues for one token list: every
caller first chunks the (deduplicated) tokens into 500-sized batches and
hands each batch to the superseding `sendMulticast`, which filters inside. -/
def pipelineCallsNext (provider : Provider) (tokens : List Str) : List (List Str) :=
  ((chunk tokens 500).map (fun b =>
    match FcmNext.sendMulticast true provider b with
    | .ok (_, calls) => calls
    | .error _ => [])).flatten

/-- Modelled from the spec's words, for comparison with the code pipeline:
the provider calls that result when the validity filter is applied BEFORE
batching, as the spec's "this filter MUST be applied before batching"
sentence prescribes. -/
def specFilterThenBatchCalls (tokens : List Str) : List (List Str) :=
  chunk (FcmNext.validTokens tokens) 500

/-- A structurally valid token for test inputs: longer than 80 characters,
with a colon and the APA91 marker. -/
def goodTok : Str := ':' :: 'A' :: 'P' :: 'A' :: '9' :: '1' :: List.replicate 76 'x'

/-- A structurally invalid token for test inputs. -/
def badTok : Str := ['x']

/-- 501 tokens: one invalid followed by 500 valid ones. -/
def cxTokens : List Str := badTok :: List.replicate 500 goodTok

theorem goodTok_valid : isLikelyValidFcmToken (some goodTok) = true := by decide

theorem badTok_invalid : isLikelyValidFcmToken (some badTok) = false := by decide

theorem validTokens_replicate (n : Nat) :
    FcmNext.validTokens (List.replicate n goodTok) = List.replicate n goodTok := by
  unfold FcmNext.validTokens
  induction n with
  | zero => rfl
  | succ n ih =>
    rw [List.replicate_succ, List.filter_cons]
    simp only [goodTok_valid, if_pos]
    rw [ih]

theorem validTokens_cx (n : Nat) :
    FcmNext.validTokens (badTok :: List.replicate n goodTok) = List.replicate n goodTok := by
  unfold FcmNext.validTokens
  rw [List.filter_cons]
  simp only [badTok_invalid, Bool.false_eq_true, if_neg]
  exact validTokens_replicate n


theorem sendMulticast_next_ok {provider : Provider} {tokens : List Str} {r : SendOutcome}
    (hne : tokens ≠ []) (hv : FcmNext.validTokens tokens ≠ [])
    (hp : provider (FcmNext.validTokens tokens) = .ok r) :
    FcmNext.sendMulticast true provider tokens
      = .ok (⟨r.successCount, r.failureCount⟩, [FcmNext.validTokens tokens]) := by
  simp only [FcmNext.sendMulticast]
  rw [if_neg (by simpa [List.isEmpty_iff] using hne),
      if_neg (by simpa [List.isEmpty_iff] using hv),
      if_neg (by simp), hp]

theorem chunk_cx_eq :
    chunk cxTokens 500 = [badTok :: List.replicate 499 goodTok, [goodTok]] := by
  have h500 : (500 : Nat) = 499 + 1 := rfl
  have htake : cxTokens.take 500 = badTok :: List.replicate 499 goodTok := by
    unfold cxTokens
    rw [h500, List.take_succ_cons, List.take_replicate]
    norm_num
  have hdrop : cxTokens.drop 500 = [goodTok] := by
    unfold cxTokens
    rw [h500, List.drop_succ_cons, List.drop_replicate]
    norm_num
  rw [chunk_cons (by unfold cxTokens; exact List.cons_ne_nil _ _) (by norm_num), htake, hdrop]
  rw [chunk_cons (List.cons_ne_nil _ _) (by norm_num)]
  have ht1 : ([goodTok] : List Str).take 500 = [goodTok] := rfl
  have hd1 : ([goodTok] : List Str).drop 500 = [] := rfl
  rw [ht1, hd1, chunk_nil]

theorem chunk_replicate500 :
    chunk (List.replicate 500 goodTok) 500 = [List.replicate 500 goodTok] := by
  have h500 : (500 : Nat) = 499 + 1 := rfl
  have hne : List.replicate 500 goodTok ≠ [] := by
    rw [h500, List.replicate_succ]
    exact List.cons_ne_nil _ _
  have htake : (List.replicate 500 goodTok).take 500 = List.replicate 500 goodTok := by
    rw [List.take_replicate]
    norm_num
  have hdrop : (List.replicate 500 goodTok).drop 500 = [] := by
    rw [List.drop_replicate]
    norm_num
  rw [chunk_cons hne (by norm_num), htake, hdrop, chunk_nil]

theorem replicate_goodTok_ne_nil (n : Nat) :
    List.replicate (n + 1) goodTok ≠ [] := by
  rw [List.replicate_succ]
  exact List.cons_ne_nil _ _

/-- Claim C5 counterexample: the code pipeline chunks first and filters
inside each per-batch send, which is observably different from applying
the validity filter before batching: on a 501-token list whose first token
is invalid, the pipeline issues two provider calls (sized 499 and 1) where
the filter-before-batching order would issue one 500-sized call. -/
theorem claim_C5_counterexample :
    pipelineCallsNext okProvider cxTokens = [List.replicate 499 goodTok, [goodTok]]
    ∧ specFilterThenBatchCalls cxTokens = [List.replicate 500 goodTok]
    ∧ pipelineCallsNext okProvider cxTokens ≠ specFilterThenBatchCalls cxTokens := by
  have hs1 : FcmNext.sendMulticast true okProvider (badTok :: List.replicate 499 goodTok)
      = .ok (⟨0, 0⟩, [List.replicate 499 goodTok]) := by
    have h := @sendMulticast_next_ok okProvider (badTok :: List.replicate 499 goodTok) ⟨0, 0⟩
      (List.cons_ne_nil _ _)
      (by rw [validTokens_cx]; exact replicate_goodTok_ne_nil 498) rfl
    rw [validTokens_cx] at h
    exact h
  have hv1 : FcmNext.validTokens [goodTok] = [goodTok] := by
    unfold FcmNext.validTokens
    rw [List.filter_cons]
    simp [goodTok_valid]
  have hs2 : FcmNext.sendMulticast true okProvider [goodTok] = .ok (⟨0, 0⟩, [[goodTok]]) := by
    have h := @sendMulticast_next_ok okProvider [goodTok] ⟨0, 0⟩
      (List.cons_ne_nil _ _) (by rw [hv1]; exact List.cons_ne_nil _ _) rfl
    rw [hv1] at h
    exact h
  have hpipe : pipelineCallsNext okProvider cxTokens
      = [List.replicate 499 goodTok, [goodTok]] := by
    unfold pipelineCallsNext
    rw [chunk_cx_eq, List.map_cons, List.map_cons, List.map_nil]
    simp only [hs1, hs2]
    rfl
  have hvcx : FcmNext.validTokens cxTokens = List.replicate 500 goodTok := by
    unfold cxTokens
    exact validTokens_cx 500
  have hspec : specFilterThenBatchCalls cxTokens = [List.replicate 500 goodTok] := by
    unfold specFilterThenBatchCalls
    rw [hvcx, chunk_replicate500]
  refine ⟨hpipe, hspec, ?_⟩
  rw [hpipe, hspec]
  intro h
  exact absurd (congrArg List.length h) (by decide)

/-- Claim C5 (amended): in the superseding delivery client the validity
filter runs inside each per-batch send — after the pipeline's chunk step
but always before the provider call.  Tokens failing the filter are
excluded from every provider call (every call carries exactly the filtered
tokens) and are counted as skipped (skipped + valid = total), never
contributing to failureCount (the returned failureCount is the provider's
tally over the valid tokens only); sending an empty token list, or one in
which no token passes the filter, yields {successCount 0, failureCount 0}. -/
theorem claim_C5_filter (initialized : Bool) (provider : Provider) (tokens : List Str)
    (r : SendOutcome) :
    FcmNext.sendMulticast initialized provider [] = .ok (⟨0, 0⟩, [])
    ∧ (FcmNext.validTokens tokens = [] →
        FcmNext.sendMulticast initialized provider tokens = .ok (⟨0, 0⟩, []))
    ∧ (∀ out calls, FcmNext.sendMulticast initialized provider tokens = .ok (out, calls) →
        ∀ c ∈ calls, c = FcmNext.validTokens tokens)
    ∧ FcmNext.skippedInvalid tokens + (FcmNext.validTokens tokens).length = tokens.length
    ∧ (tokens ≠ [] → FcmNext.validTokens tokens ≠ [] →
        provider (FcmNext.validTokens tokens) = .ok r →
        FcmNext.sendMulticast true provider tokens
          = .ok (⟨r.successCount, r.failureCount⟩, [FcmNext.validTokens tokens])) := by
  refine ⟨rfl, ?_, ?_, ?_, fun h1 h2 h3 => sendMulticast_next_ok h1 h2 h3⟩
  · intro hv
    simp only [FcmNext.sendMulticast]
    split_ifs with h1 h2 h3
    · rfl
    · rfl
    · rfl
    · exact absurd (by rw [hv]; rfl) h2
  · intro out calls h c hc
    simp only [FcmNext.sendMulticast] at h
    split_ifs at h with h1 h2 h3
    · cases h
      cases hc
    · cases h
      cases hc
    · cases h
      cases hc
    · cases hp : provider (FcmNext.validTokens tokens) with
      | ok r2 =>
        rw [hp] at h
        cases h
        rcases List.mem_singleton.mp hc with rfl
        rfl
      | error e =>
        rw [hp] at h
        cases h
  · have hle : (FcmNext.validTokens tokens).length ≤ tokens.length :=
      List.length_filter_le _ _
    unfold FcmNext.skippedInvalid
    omega

theorem claim_C5_filter_witness :
    ([goodTok, badTok] : List Str) ≠ []
    ∧ FcmNext.validTokens [goodTok, badTok] ≠ []
    ∧ okProvider (FcmNext.validTokens [goodTok, badTok]) = .ok ⟨0, 0⟩
    ∧ FcmNext.sendMulticast true okProvider [goodTok, badTok]
        = .ok (⟨0, 0⟩, [FcmNext.validTokens [goodTok, badTok]]) :=
  ⟨by decide, by decide, rfl,
   (claim_C5_filter true okProvider [goodTok, badTok] ⟨0, 0⟩).2.2.2.2
     (by decide) (by decide) rfl⟩

/-! ### Lemmas about the POST /api/jobs hook -/

theorem attemptBatches_sub (send : List Str → Except Unit SendOutcome) :
    ∀ bs, ∀ b ∈ attemptBatches send bs, b ∈ bs := by
  intro bs
  induction bs with
  | nil => intro b hb; cases hb
  | cons x xs ih =>
    intro b hb
    rw [attemptBatches] at hb
    rcases List.mem_cons.mp hb with rfl | hb2
    · exact List.mem_cons_self _ _
    · cases hsend : send x with
      | ok r =>
        rw [hsend] at hb2
        exact List.mem_cons_of_mem _ (ih b hb2)
      | error e =>
        rw [hsend] at hb2
        cases hb2

theorem mem_collectLastTokens {users : List User} {t : Str}
    (h : t ∈ collectLastTokens users) :
    ∃ u ∈ users, ∃ t0, u.lastFcmToken = some t0 ∧ jsTrim t0 = t := by
  rw [collectLastTokens_eq_dedupe, mem_dedupe, List.mem_filterMap] at h
  obtain ⟨u, hu, hc⟩ := h
  refine ⟨u, hu, ?_⟩
  rcases hlt : u.lastFcmToken with _ | t0
  · simp only [lastTokenContrib, hlt] at hc
    exact Option.noConfusion hc
  · simp only [lastTokenContrib, hlt] at hc
    by_cases h1 : t0.isEmpty
    · rw [if_pos h1] at hc; cases hc
    · rw [if_neg h1] at hc
      by_cases h2 : (jsTrim t0).isEmpty
      · rw [if_pos h2] at hc; cases hc
      · rw [if_neg h2] at hc
        exact ⟨t0, rfl, Option.some_inj.mp hc⟩

theorem autoAssignDB_users (o : NotifyOracle) (docId : Nat) (db : DB) (ids : List Nat) :
    (autoAssignDB o docId db ids).users = db.users := by
  match ids with
  | [] => rfl
  | [c] =>
    unfold autoAssignDB
    rcases ha : o.assignCreate with e | aid
    · rfl
    · by_cases hu : o.jobUpdateOk
      · simp [hu]
      · simp [hu]
  | c1 :: c2 :: rest => rfl

theorem autoAssignDB_jobs (o : NotifyOracle) (docId : Nat) (db : DB) (ids : List Nat) :
    (autoAssignDB o docId db ids).jobs = db.jobs
    ∨ ∃ c a, (autoAssignDB o docId db ids).jobs = db.jobs.map (jobAssignUpdate c a docId) := by
  match ids with
  | [] => exact Or.inl rfl
  | [c] =>
    unfold autoAssignDB
    rcases ha : o.assignCreate with e | aid
    · exact Or.inl rfl
    · by_cases hu : o.jobUpdateOk
      · exact Or.inr ⟨c, aid, by simp [hu]⟩
      · exact Or.inl (by simp [hu])
  | c1 :: c2 :: rest => exact Or.inl rfl

theorem notifyTask_db_eq (o : NotifyOracle) (doc : Job) (db : DB) :
    (notifyTask o doc db).db = db
    ∨ (notifyTask o doc db).db
        = autoAssignDB o doc.jid db ((matchedVendors db doc).map (fun v => v.vid)) := by
  unfold notifyTask
  by_cases hvf : o.vendorFindOk
  · right
    simp only [hvf, Bool.not_true, Bool.false_eq_true, if_false]
    split <;> rfl
  · left
    simp [hvf]

theorem jobAssignUpdate_fields (c a d : Nat) (j : Job) :
    (jobAssignUpdate c a d j).jid = j.jid
    ∧ (jobAssignUpdate c a d j).soNumber = j.soNumber := by
  unfold jobAssignUpdate
  split <;> exact ⟨rfl, rfl⟩

theorem postJobs_ok (o : PostOracle) (body : ReqBody) (db : DB)
    (hso : (body.soNumber.getD []).isEmpty = false)
    (hcr : o.createResult = .ok ()) :
    postJobs o true body db
      = ⟨⟨201, true⟩,
         (notifyTask o.toNotifyOracle (createdDoc o.newJobId body)
           { db with jobs := db.jobs ++ [createdDoc o.newJobId body] }).db,
         (notifyTask o.toNotifyOracle (createdDoc o.newJobId body)
           { db with jobs := db.jobs ++ [createdDoc o.newJobId body] }).attempts⟩ := by
  simp [postJobs, hso, hcr]

/-! ### Claim C1: fire-and-forget job creation -/

/-- Claim C1 (amended): once the job-creation write has succeeded, POST
/api/jobs returns 201 with success true whatever the delivery oracle does —
including throwing at any step — and a job document with the new id and
soNumber remains persisted; hook errors are never surfaced to the caller.
The document does not always remain exactly as created: the single-match
auto-assign side effect inside the detached hook may update it before a
later step throws (see the counterexample). -/
theorem claim_C1_fire_and_forget (o : PostOracle) (body : ReqBody) (db : DB)
    (hso : (body.soNumber.getD []).isEmpty = false)
    (hcr : o.createResult = .ok ()) :
    (postJobs o true body db).resp = ⟨201, true⟩
    ∧ ∃ j ∈ (postJobs o true body db).db.jobs,
        j.jid = o.newJobId ∧ j.soNumber = body.soNumber.getD [] := by
  rw [postJobs_ok o body db hso hcr]
  refine ⟨rfl, ?_⟩
  have hdocmem : createdDoc o.newJobId body
      ∈ ({ db with jobs := db.jobs ++ [createdDoc o.newJobId body] } : DB).jobs :=
    List.mem_append_right _ (List.mem_singleton_self _)
  rcases notifyTask_db_eq o.toNotifyOracle (createdDoc o.newJobId body)
      { db with jobs := db.jobs ++ [createdDoc o.newJobId body] } with h | h
  · exact ⟨createdDoc o.newJobId body, by rw [h]; exact hdocmem, rfl, rfl⟩
  · rcases autoAssignDB_jobs o.toNotifyOracle (createdDoc o.newJobId body).jid
        { db with jobs := db.jobs ++ [createdDoc o.newJobId body] }
        ((matchedVendors { db with jobs := db.jobs ++ [createdDoc o.newJobId body] }
          (createdDoc o.newJobId body)).map (fun v => v.vid)) with hj | ⟨c, a, hj⟩
    · exact ⟨createdDoc o.newJobId body, by rw [h, hj]; exact hdocmem, rfl, rfl⟩
    · refine ⟨jobAssignUpdate c a (createdDoc o.newJobId body).jid (createdDoc o.newJobId body),
        by rw [h, hj]; exact List.mem_map.mpr ⟨_, hdocmem, rfl⟩, ?_, ?_⟩
      · rw [(jobAssignUpdate_fields _ _ _ _).1]
        rfl
      · rw [(jobAssignUpdate_fields _ _ _ _).2]
        rfl

/-- The single matching vendor of the C1/C7 concrete scenarios. -/
def cxVendor : Vendor := ⟨1, ["10001".data], ["Refrigerator".data]⟩

/-- An account linked to the matching vendor, holding one push token. -/
def cxUser : User := ⟨1, some 1, some "tok1".data⟩

/-- Initial store: one vendor, one linked account, no jobs. -/
def cxDb : DB := ⟨[], [], [cxVendor], [cxUser]⟩

/-- A creation request whose zip and appliance match `cxVendor` exactly. -/
def cxBody : ReqBody :=
  { soNumber := some "SO1".data, customerZip := some "10001".data, customerCity := none
    applianceType := some "Refrigerator".data, status := none, vendorId := none }

/-- Oracle: creation succeeds, the auto-assign writes succeed, and the
delivery send throws on every batch. -/
def cxOracle : PostOracle :=
  { vendorFindOk := true, assignCreate := .ok 7, jobUpdateOk := true, userFindOk := true
    send := fun _ => .error (), createResult := .ok (), newJobId := 5 }

/-- Claim C1 counterexample: a delivery step throws (the send on the only
batch), the response is still 201/success, but the persisted job document
does NOT remain as created — the auto-assign side effect has set its
status to "assigned" with vendorId and assignmentId before the throw. -/
theorem claim_C1_counterexample :
    (postJobs cxOracle true cxBody cxDb).resp = ⟨201, true⟩
    ∧ (postJobs cxOracle true cxBody cxDb).attempts = [["tok1".data]]
    ∧ cxOracle.send ["tok1".data] = .error ()
    ∧ (postJobs cxOracle true cxBody cxDb).db.jobs
        = [{ jid := 5, soNumber := "SO1".data, customerZip := "10001".data,
             customerCity := [], applianceType := "Refrigerator".data,
             status := "assigned".data, vendorId := some 1, assignmentId := some 7 }]
    ∧ (postJobs cxOracle true cxBody cxDb).db.jobs ≠ [createdDoc 5 cxBody] := by
  have hch : chunk (["tok1".data] : List Str) 500 = [["tok1".data]] := by
    rw [chunk_cons (List.cons_ne_nil _ _) (by norm_num)]
    rw [show ((["tok1".data] : List Str).drop 500) = [] from rfl, chunk_nil]
    rfl
  refine ⟨rfl, ?_, rfl, by decide, by decide⟩
  have hatt : (postJobs cxOracle true cxBody cxDb).attempts
      = attemptBatches cxOracle.send (chunk (["tok1".data] : List Str) 500) := rfl
  rw [hatt, hch]
  rfl

theorem claim_C1_fire_and_forget_witness :
    (cxBody.soNumber.getD []).isEmpty = false
    ∧ cxOracle.createResult = .ok ()
    ∧ ((postJobs cxOracle true cxBody cxDb).resp = ⟨201, true⟩
       ∧ ∃ j ∈ (postJobs cxOracle true cxBody cxDb).db.jobs,
           j.jid = cxOracle.newJobId ∧ j.soNumber = cxBody.soNumber.getD []) :=
  ⟨by decide, rfl, claim_C1_fire_and_forget cxOracle cxBody cxDb (by decide) rfl⟩

/-! ### Claim C7: single-match auto-assign -/

theorem userSelected_single {w : Nat} {u : User} (h : userSelected [w] u = true) :
    u.vendorId = some w := by
  simp only [userSelected, Bool.and_eq_true] at h
  rcases hvid : u.vendorId with _ | x
  · rw [hvid] at h
    simp at h
  · rw [hvid] at h
    have hx : x = w := by
      have h1 := h.1
      simp only [List.contains_cons, List.contains_nil, Bool.or_false, beq_iff_eq] at h1
      exact h1
    rw [hx]

theorem notifyTask_single_ok (o : NotifyOracle) (doc : Job) (db : DB) (v : Vendor)
    (hvf : o.vendorFindOk = true) (huf : o.userFindOk = true)
    (hm : matchedVendors db doc = [v]) :
    notifyTask o doc db
      = ⟨autoAssignDB o doc.jid db [v.vid],
         attemptBatches o.send (chunk (collectLastTokens
           ((autoAssignDB o doc.jid db [v.vid]).users.filter (userSelected [v.vid]))) 500)⟩ := by
  unfold notifyTask
  rw [hm]
  simp only [hvf, Bool.not_true, Bool.false_eq_true, if_false, List.map_cons, List.map_nil,
    List.isEmpty_cons, huf, if_true]

theorem notifyTask_single_nouser (o : NotifyOracle) (doc : Job) (db : DB) (v : Vendor)
    (hvf : o.vendorFindOk = true) (huf : o.userFindOk = false)
    (hm : matchedVendors db doc = [v]) :
    notifyTask o doc db = ⟨autoAssignDB o doc.jid db [v.vid], []⟩ := by
  unfold notifyTask
  rw [hm]
  simp only [hvf, Bool.not_true, Bool.false_eq_true, if_false, List.map_cons, List.map_nil,
    List.isEmpty_cons, huf, if_true]

theorem autoAssignDB_single (o : NotifyOracle) (docId : Nat) (db : DB) (c aid : Nat)
    (hassign : o.assignCreate = .ok aid) (hupd : o.jobUpdateOk = true) :
    autoAssignDB o docId db [c]
      = { db with
          assignments := db.assignments ++ [⟨aid, docId, c, "assigned".data, "accept".data⟩]
          jobs := db.jobs.map (jobAssignUpdate c aid docId) } := by
  unfold autoAssignDB
  rw [hassign]
  simp [hupd]

/-- Claim C7: when exactly one vendor matches both the created job's zip
(service-area membership) and appliance filters and the assignment write
succeeds, the hook auto-assigns the job to that vendor before notifying:
an "assigned"/"accept" assignment record is persisted, the job document
gets that vendorId, status "assigned" and the assignmentId, and every
token of every delivery attempt belongs to an account linked to the
matched vendor — never to an unrelated account. -/
theorem claim_C7_single_match (o : PostOracle) (body : ReqBody) (db : DB) (v : Vendor)
    (aid : Nat)
    (hso : (body.soNumber.getD []).isEmpty = false)
    (hcr : o.createResult = .ok ())
    (hvf : o.vendorFindOk = true)
    (hm : matchedVendors db (createdDoc o.newJobId body) = [v])
    (hassign : o.assignCreate = .ok aid)
    (hupd : o.jobUpdateOk = true) :
    (⟨aid, o.newJobId, v.vid, "assigned".data, "accept".data⟩ : Assignment)
        ∈ (postJobs o true body db).db.assignments
    ∧ (∃ j ∈ (postJobs o true body db).db.jobs,
        j.jid = o.newJobId ∧ j.vendorId = some v.vid
          ∧ j.status = "assigned".data ∧ j.assignmentId = some aid)
    ∧ (∀ b ∈ (postJobs o true body db).attempts, ∀ t ∈ b,
        ∃ u ∈ db.users, u.vendorId = some v.vid
          ∧ ∃ t0, u.lastFcmToken = some t0 ∧ jsTrim t0 = t) := by
  rw [postJobs_ok o body db hso hcr]
  have hm1 : matchedVendors { db with jobs := db.jobs ++ [createdDoc o.newJobId body] }
      (createdDoc o.newJobId body) = [v] := hm
  have hjid : (createdDoc o.newJobId body).jid = o.newJobId := rfl
  have hauto := autoAssignDB_single o.toNotifyOracle (createdDoc o.newJobId body).jid
    { db with jobs := db.jobs ++ [createdDoc o.newJobId body] } v.vid aid hassign hupd
  have hassignmem :
      (⟨aid, o.newJobId, v.vid, "assigned".data, "accept".data⟩ : Assignment)
        ∈ (autoAssignDB o.toNotifyOracle (createdDoc o.newJobId body).jid
            { db with jobs := db.jobs ++ [createdDoc o.newJobId body] } [v.vid]).assignments := by
    rw [hauto]
    rw [← hjid]
    exact List.mem_append_right _ (List.mem_singleton_self _)
  have hjobmem :
      ∃ j ∈ (autoAssignDB o.toNotifyOracle (createdDoc o.newJobId body).jid
          { db with jobs := db.jobs ++ [createdDoc o.newJobId body] } [v.vid]).jobs,
        j.jid = o.newJobId ∧ j.vendorId = some v.vid
          ∧ j.status = "assigned".data ∧ j.assignmentId = some aid := by
    rw [hauto]
    refine ⟨jobAssignUpdate v.vid aid (createdDoc o.newJobId body).jid
        (createdDoc o.newJobId body),
      List.mem_map.mpr ⟨createdDoc o.newJobId body,
        List.mem_append_right _ (List.mem_singleton_self _), rfl⟩, ?_⟩
    unfold jobAssignUpdate
    rw [if_pos rfl]
    exact ⟨rfl, rfl, rfl, rfl⟩
  by_cases huf : o.toNotifyOracle.userFindOk
  · rw [notifyTask_single_ok o.toNotifyOracle (createdDoc o.newJobId body)
      { db with jobs := db.jobs ++ [createdDoc o.newJobId body] } v hvf huf hm1]
    refine ⟨hassignmem, hjobmem, ?_⟩
    intro b hb t ht
    have hbchunk := attemptBatches_sub o.toNotifyOracle.send _ b hb
    have htok := chunk_mem_mem (by norm_num : (500 : Nat) ≠ 0) hbchunk ht
    obtain ⟨u, hu, t0, hlt, htr⟩ := mem_collectLastTokens htok
    rw [List.mem_filter] at hu
    refine ⟨u, ?_, userSelected_single hu.2, t0, hlt, htr⟩
    have : (autoAssignDB o.toNotifyOracle (createdDoc o.newJobId body).jid
        { db with jobs := db.jobs ++ [createdDoc o.newJobId body] } [v.vid]).users
        = db.users := autoAssignDB_users _ _ _ _
    rw [this] at hu
    exact hu.1
  · rw [notifyTask_single_nouser o.toNotifyOracle (createdDoc o.newJobId body)
      { db with jobs := db.jobs ++ [createdDoc o.newJobId body] } v hvf
      (Bool.eq_false_iff.mpr huf) hm1]
    refine ⟨hassignmem, hjobmem, ?_⟩
    intro b hb
    cases hb

/-- Second vendor of the C7 witness scenario: matches neither the zip nor
the appliance of the created job. -/
def otherVendor : Vendor := ⟨2, ["99999".data], ["Washer".data]⟩

/-- An account linked to the unrelated vendor. -/
def otherUser : User := ⟨2, some 2, some "tokB".data⟩

/-- Witness store: the matching vendor and an unrelated vendor, one
account each. -/
def wDb : DB := ⟨[], [], [cxVendor, otherVendor], [cxUser, otherUser]⟩

/-- Witness oracle: everything succeeds and the provider accepts. -/
def wOracle : PostOracle :=
  { vendorFindOk := true, assignCreate := .ok 3, jobUpdateOk := true, userFindOk := true
    send := fun _ => .ok ⟨1, 0⟩, createResult := .ok (), newJobId := 9 }

theorem claim_C7_single_match_witness :
    (cxBody.soNumber.getD []).isEmpty = false
    ∧ wOracle.createResult = .ok ()
    ∧ wOracle.vendorFindOk = true
    ∧ matchedVendors wDb (createdDoc wOracle.newJobId cxBody) = [cxVendor]
    ∧ wOracle.assignCreate = .ok 3
    ∧ wOracle.jobUpdateOk = true
    ∧ ((⟨3, wOracle.newJobId, cxVendor.vid, "assigned".data, "accept".data⟩ : Assignment)
          ∈ (postJobs wOracle true cxBody wDb).db.assignments
       ∧ (∃ j ∈ (postJobs wOracle true cxBody wDb).db.jobs,
           j.jid = wOracle.newJobId ∧ j.vendorId = some cxVendor.vid
             ∧ j.status = "assigned".data ∧ j.assignmentId = some 3)
       ∧ (∀ b ∈ (postJobs wOracle true cxBody wDb).attempts, ∀ t ∈ b,
           ∃ u ∈ wDb.users, u.vendorId = some cxVendor.vid
             ∧ ∃ t0, u.lastFcmToken = some t0 ∧ jsTrim t0 = t)) :=
  ⟨by decide, rfl, rfl, by decide, rfl, rfl,
   claim_C7_single_match wOracle cxBody wDb cxVendor 3 (by decide) rfl rfl (by decide) rfl rfl⟩
